import Mathlib

/-!
Verification development for the quantization-weight subsystem of a
JPEG XL encoder (`src/jxl/quant_weights.h`), shallowly embedded in Lean.

Machine floats are modelled as rationals (`ℚ`), machine integers as
`Nat`/`Int`, C++ arrays and vectors as lists, and heap pointers (for the
one owning variant) as identifiers into an explicit heap.  Code that lives
in `quant_weights.cc` — the table builder `Compute`, the bitstream codec
`Encode`/`Decode`/`EncodeDC`/`DecodeDC` and the predefined library tables —
is not among the given sources; those parts are modelled from the
specification and carry a doc comment saying so.
-/

namespace Jxl

/-- Modelled from the spec: `kDCTBlockSize` is defined in `jxl/common.h`,
which is not among the sources; the spec sizes tables in units of the 8×8
block, i.e. 64 coefficients per block. -/
def kDCTBlockSize : Nat := 64

/-- `static constexpr size_t kMaxQuantTableSize = kDCTBlockSize * 16;` -/
def kMaxQuantTableSize : Nat := kDCTBlockSize * 16

/-- `static constexpr size_t kNumPredefinedTables = 1;` -/
def kNumPredefinedTables : Nat := 1

/-- `static constexpr size_t kCeilLog2NumPredefinedTables = 0;` -/
def kCeilLog2NumPredefinedTables : Nat := 0

/-- `static constexpr size_t kLog2NumQuantModes = 3;` -/
def kLog2NumQuantModes : Nat := 3

/-- `ArraySum` from `quant_weights.h`: recursive sum of a constexpr array. -/
def ArraySum (a : List Nat) : Nat := a.sum

/-- `DctQuantWeightParams`: a band count and a 3 × `kMaxDistanceBands`
array of per-channel distance-band weights.  The public template
constructor zero-initializes the array and then copies exactly
`num_distance_bands` values per channel. -/
structure DctQuantWeightParams where
  num_distance_bands : Nat := 0
  distance_bands : List (List ℚ) := List.replicate 3 (List.replicate 17 0)
deriving DecidableEq, Repr

namespace DctQuantWeightParams

/-- `static constexpr size_t kLog2MaxDistanceBands = 4;` -/
def kLog2MaxDistanceBands : Nat := 4

/-- `static constexpr size_t kMaxDistanceBands = 1 + (1 << kLog2MaxDistanceBands);` -/
def kMaxDistanceBands : Nat := 1 + 2 ^ kLog2MaxDistanceBands

/-- The public template constructor
`DctQuantWeightParams(const float dist_bands[3][num_dist_bands])`:
`distance_bands` starts zero-initialized and `memcpy` fills the first
`num_dist_bands` entries of each channel. -/
def ofBands (bands : List (List ℚ)) (num : Nat) : DctQuantWeightParams :=
  { num_distance_bands := num
    distance_bands :=
      (List.range 3).map fun c =>
        ((bands.getD c []).take num ++ List.replicate 17 0).take 17 }

/-- A value reachable through the public constructors: three channels of
exactly `kMaxDistanceBands` entries, a band count within range, and zeros
beyond the band count (the constructor zero-initializes the array). -/
def WellFormed (p : DctQuantWeightParams) : Prop :=
  p.num_distance_bands ≤ kMaxDistanceBands ∧
  p.distance_bands.length = 3 ∧
  ∀ ch ∈ p.distance_bands,
    ch.length = kMaxDistanceBands ∧ ∀ q ∈ ch.drop p.num_distance_bands, q = 0

instance (p : DctQuantWeightParams) : Decidable (WellFormed p) := by
  unfold WellFormed
  infer_instance

end DctQuantWeightParams

/-- `QuantEncodingInternal::Mode`. -/
inductive Mode where
  | kQuantModeLibrary
  | kQuantModeID
  | kQuantModeDCT2
  | kQuantModeDCT4
  | kQuantModeDCT4X8
  | kQuantModeAFV
  | kQuantModeDCT
  | kQuantModeRAW
deriving DecidableEq, Repr

/-- The value-level view of `QuantEncoding`: one case per variant, carrying
exactly the payload its public constructor stores (the C++ tagged union,
expressed as a closed sum; the `RAW` case carries the table contents whose
C++ representation is an owned heap vector). -/
inductive QuantEncoding where
  | library (predefined : Nat)
  | identity (idweights : List (List ℚ))
  | dct2 (dct2weights : List (List ℚ))
  | dct4 (dct_params : DctQuantWeightParams) (dct4multipliers : List (List ℚ))
  | dct4x8 (dct_params : DctQuantWeightParams) (dct4x8multipliers : List ℚ)
  | afv (dct_params : DctQuantWeightParams) (dct_params_afv_4x4 : DctQuantWeightParams)
      (afv_weights : List (List ℚ))
  | dct (dct_params : DctQuantWeightParams)
  | raw (qtable : List Int) (qtable_den_shift : Int)
deriving DecidableEq, Repr

namespace QuantEncoding

/-- The `mode` field of the C++ object for each variant. -/
def mode : QuantEncoding → Mode
  | .library _ => .kQuantModeLibrary
  | .identity _ => .kQuantModeID
  | .dct2 _ => .kQuantModeDCT2
  | .dct4 _ _ => .kQuantModeDCT4
  | .dct4x8 _ _ => .kQuantModeDCT4X8
  | .afv _ _ _ => .kQuantModeAFV
  | .dct _ => .kQuantModeDCT
  | .raw _ _ => .kQuantModeRAW

end QuantEncoding

/-- Outcome of an operation that can hit a fail-fast check (`::jxl::Abort`
reached through an assertion such as the one in
`QuantEncodingInternal::Library`, or `JXL_ASSERT`/`JXL_CHECK`).  An abort
terminates the process: it is not a recoverable `Status`.  For state-holding
operations the payload records the object state at the abort point. -/
inductive OrAbort (α : Type) where
  | ok (a : α)
  | abort (a : α)
deriving DecidableEq, Repr

namespace OrAbort

def isOk {α : Type} : OrAbort α → Bool
  | .ok _ => true
  | .abort _ => false

def isAbort {α : Type} : OrAbort α → Bool
  | .ok _ => false
  | .abort _ => true

end OrAbort

namespace QuantEncoding

/-- `QuantEncodingInternal::Library` / `QuantEncoding::Library`:
`(predefined < kNumPredefinedTables) || ::jxl::Abort(...)`, then constructs
the library variant.  The out-of-range case aborts (fail fast), it does not
return an error status. -/
def Library (predefined : Nat) : OrAbort QuantEncoding :=
  if predefined < kNumPredefinedTables then .ok (.library predefined)
  else .abort (.library predefined)

/-- `QuantEncoding::RAW(qtable, shift)`: stores a fresh copy of the caller's
table (ownership is studied separately on the pointer-level model). -/
def RAW (qtable : List Int) (shift : Int := 0) : QuantEncoding :=
  .raw qtable shift

/-- A value reachable through the public constructors: library indices in
range, constant arrays of the right shapes, and well-formed distance-band
parameters. -/
def WellFormed : QuantEncoding → Prop
  | .library p => p < kNumPredefinedTables
  | .identity w => w.length = 3 ∧ ∀ ch ∈ w, ch.length = 3
  | .dct2 w => w.length = 3 ∧ ∀ ch ∈ w, ch.length = 6
  | .dct4 p mul => p.WellFormed ∧ mul.length = 3 ∧ ∀ ch ∈ mul, ch.length = 2
  | .dct4x8 p mul => p.WellFormed ∧ mul.length = 3
  | .afv p48 p44 w => p48.WellFormed ∧ p44.WellFormed ∧
      w.length = 3 ∧ ∀ ch ∈ w, ch.length = 9
  | .dct p => p.WellFormed
  | .raw _ _ => True

instance : ∀ e : QuantEncoding, Decidable (WellFormed e) := by
  intro e
  cases e <;> (unfold WellFormed; infer_instance)

end QuantEncoding

namespace DequantMatrices

/-- `enum QuantTable : size_t` — the 11 logical quant tables. -/
def DCT : Nat := 0
/-- `QuantTable::IDENTITY` -/
def IDENTITY : Nat := 1
/-- `QuantTable::DCT2X2` -/
def DCT2X2 : Nat := 2
/-- `QuantTable::DCT4X4` -/
def DCT4X4 : Nat := 3
/-- `QuantTable::DCT16X16` -/
def DCT16X16 : Nat := 4
/-- `QuantTable::DCT32X32` -/
def DCT32X32 : Nat := 5
/-- `QuantTable::DCT8X16` (also used by DCT16X8) -/
def DCT8X16 : Nat := 6
/-- `QuantTable::DCT8X32` (also used by DCT32X8) -/
def DCT8X32 : Nat := 7
/-- `QuantTable::DCT16X32` (also used by DCT32X16) -/
def DCT16X32 : Nat := 8
/-- `QuantTable::DCT4X8` (also used by DCT8X4) -/
def DCT4X8 : Nat := 9
/-- `QuantTable::AFV0` (also used by AFV1, AFV2, AFV3) -/
def AFV0 : Nat := 10
/-- `QuantTable::kNum` -/
def kNum : Nat := 11

/-- `AcStrategy::kNumValidStrategies` (the header statically asserts it
is 18). -/
def kNumValidStrategies : Nat := 18

/-- `static constexpr QuantTable kQuantTable[]`: the fixed map from the 18
AC strategies to the 11 logical quant tables. -/
def kQuantTable : List Nat :=
  [DCT, IDENTITY, DCT2X2,
   DCT4X4, DCT16X16, DCT32X32,
   DCT8X16, DCT8X16, DCT8X32,
   DCT8X32, DCT16X32, DCT16X32,
   DCT4X8, DCT4X8, AFV0,
   AFV0, AFV0, AFV0]

/-- `static constexpr size_t required_size_x_[kNum]`. -/
def required_size_x_ : List Nat := [1, 1, 1, 1, 2, 4, 1, 1, 2, 1, 1]

/-- `static constexpr size_t required_size_y_[kNum]`. -/
def required_size_y_ : List Nat := [1, 1, 1, 1, 2, 4, 2, 4, 4, 1, 1]

/-- `static constexpr size_t required_size_[kNum]`. -/
def required_size_ : List Nat := [1, 1, 1, 1, 4, 16, 2, 4, 8, 1, 1]

/-- `static constexpr size_t kTotalTableSize = ArraySum(required_size_) * kDCTBlockSize * 3;` -/
def kTotalTableSize : Nat := ArraySum required_size_ * kDCTBlockSize * 3

end DequantMatrices

/-- `const float kInvDCQuant[3] = {4096.0f, 512.0f, 256.0f};` (each value and
each reciprocal below is a power of two, hence exact in binary floating
point and faithfully represented by a rational). -/
def kInvDCQuant : List ℚ := [4096, 512, 256]

/-- `const float kDCQuant[3] = {1.0f / kInvDCQuant[0], ...};` -/
def kDCQuant : List ℚ :=
  [1 / kInvDCQuant.getD 0 0, 1 / kInvDCQuant.getD 1 0, 1 / kInvDCQuant.getD 2 0]

/-- The `DequantMatrices` aggregate: the single buffer of
`2 * kTotalTableSize` floats (forward tables followed by inverse tables),
the per-channel DC quantizers, the per-(strategy, channel) offset table,
the size and the 11 per-logical-table encodings. -/
structure DequantMatrices where
  table_ : List ℚ
  dc_quant_ : List ℚ := kDCQuant
  inv_dc_quant_ : List ℚ := kInvDCQuant
  table_offsets_ : List Nat
  size_ : Nat
  encodings_ : List QuantEncoding
deriving DecidableEq, Repr

namespace DequantMatrices

/-- Number of coefficients of logical shape `i` for one channel:
`required_size_[i] * kDCTBlockSize`. -/
def shapeCoeffs (i : Nat) : Nat := required_size_.getD i 0 * kDCTBlockSize

/-- Start of logical shape `i`'s block inside the forward half of the
buffer: all earlier shapes' blocks (three channels each) come first. -/
def shapeStart (i : Nat) : Nat := ArraySum (required_size_.take i) * kDCTBlockSize * 3

/-- Modelled from the spec: the offset-table fill performed by `Compute` in
`quant_weights.cc` (not among the sources).  The spec says the offset table
maps (transform-kind, channel) to a position in the buffer and that kinds
sharing one logical shape share one table, so the offset depends on the
kind only through `kQuantTable`: shape block start plus a channel
displacement. -/
def standardOffsets : List Nat :=
  ((List.range kNumValidStrategies).map fun k =>
    (List.range 3).map fun c =>
      shapeStart (kQuantTable.getD k 0) + c * shapeCoeffs (kQuantTable.getD k 0)).flatten

/-- `MatrixOffset(quant_kind, c)`: `table_offsets_[quant_kind * 3 + c]`. -/
def MatrixOffset (m : DequantMatrices) (quant_kind c : Nat) : Nat :=
  m.table_offsets_.getD (quant_kind * 3 + c) 0

/-- `Matrix(quant_kind, c)` returns `&table_[MatrixOffset(quant_kind, c)]`;
the pointer is modelled as the index into `table_`. -/
def Matrix (m : DequantMatrices) (quant_kind c : Nat) : Nat :=
  m.MatrixOffset quant_kind c

/-- `InvTable()` returns `table_.get() + kTotalTableSize`; modelled as the
index of the inverse half inside the single buffer. -/
def InvTable : Nat := kTotalTableSize

/-- `InvMatrix(quant_kind, c)` returns `&InvTable()[MatrixOffset(quant_kind, c)]`. -/
def InvMatrix (m : DequantMatrices) (quant_kind c : Nat) : Nat :=
  InvTable + m.MatrixOffset quant_kind c

/-- The weight values `Matrix(quant_kind, c)` points at: one channel's
block of the logical shape of `quant_kind`. -/
def MatrixValues (m : DequantMatrices) (quant_kind c : Nat) : List ℚ :=
  (m.table_.drop (m.Matrix quant_kind c)).take (shapeCoeffs (kQuantTable.getD quant_kind 0))

/-- `DCQuant(c)`: `dc_quant_[c]`. -/
def DCQuant (m : DequantMatrices) (c : Nat) : ℚ := m.dc_quant_.getD c 0

/-- `InvDCQuant(c)`: `inv_dc_quant_[c]`. -/
def InvDCQuant (m : DequantMatrices) (c : Nat) : ℚ := m.inv_dc_quant_.getD c 0

/-- `Size()`: `size_`. -/
def Size (m : DequantMatrices) : Nat := m.size_

/-- Modelled from the spec: the predefined library tables built by
`DequantMatrices::LibraryInit` in `quant_weights.cc` (not among the
sources).  There is a single predefined table set
(`kNumPredefinedTables = 1`) and the spec requires the default tables to be
valid — every weight strictly positive and finite; the model uses the
constant all-ones table of each shape's size. -/
def libraryTable (i : Nat) : List ℚ := List.replicate (3 * shapeCoeffs i) 1

/-- Modelled from the spec (§4.2): piecewise-linear interpolation of the
distance bands.  `bands` are the `N` anchor values; a distance `d` in
`[0, N-1]` is clamped, the two nearest anchors are interpolated linearly,
and `N = 1` yields a constant. -/
def interpolateBand (bands : List ℚ) (d : ℚ) : ℚ :=
  if bands.length ≤ 1 then bands.getD 0 0
  else
    let dd := max 0 (min d ((bands.length : ℚ) - 1))
    let i := min (bands.length - 2) ⌊dd⌋.toNat
    let lo := bands.getD i 0
    let hi := bands.getD (i + 1) 0
    lo + (dd - (i : ℚ)) * (hi - lo)

/-- Modelled from the spec (§4.2): the per-channel weights a DCT-family
variant derives for an `n`-coefficient shape from distance-band parameters.
The exact 2D-to-1D frequency mapping is left open by the spec ("choose a
monotonic, deterministic mapping"); the model maps coefficient `j` to the
radial distance `j * (N - 1) / (n - 1)`. -/
def dctBandWeights (p : DctQuantWeightParams) (n c : Nat) : List ℚ :=
  let bands := (p.distance_bands.getD c []).take p.num_distance_bands
  (List.range n).map fun j : Nat =>
    interpolateBand bands ((j : ℚ) * ((p.num_distance_bands : ℚ) - 1) / (max (n - 1) 1 : Nat))

/-- Modelled from the spec (§4.3 construction-rule table): the forward
weight table a variant produces for logical shape `i`, channel-major
(three blocks of `shapeCoeffs i` entries).  `Library` copies the predefined
table; `Identity`/`DCT2` broadcast their constants; `DCT4`/`DCT4X8`
interpolate and then scale the low-frequency coefficients by the supplied
multipliers; `DCT` interpolates directly; `AFV` interpolates its two band
sets and places its nine explicit constants at the low coefficients; `RAW`
copies the integer table scaled by `2^(-shift)`. -/
def buildShape (e : QuantEncoding) (i : Nat) : List ℚ :=
  let n := shapeCoeffs i
  match e with
  | .library _ => libraryTable i
  | .identity w =>
      ((List.range 3).map fun c =>
        (List.range n).map fun j => (w.getD c []).getD (j % 3) 0).flatten
  | .dct2 w =>
      ((List.range 3).map fun c =>
        (List.range n).map fun j => (w.getD c []).getD (j % 6) 0).flatten
  | .dct4 p mul =>
      ((List.range 3).map fun c =>
        (List.range n).map fun j =>
          let base := (dctBandWeights p n c).getD j 0
          if j = 1 ∨ j = 2 then base * (mul.getD c []).getD 0 0
          else if j = 3 then base * (mul.getD c []).getD 1 0
          else base).flatten
  | .dct4x8 p mul =>
      ((List.range 3).map fun c =>
        (List.range n).map fun j =>
          let base := (dctBandWeights p n c).getD j 0
          if j = 1 then base * mul.getD c 0 else base).flatten
  | .afv p48 p44 w =>
      ((List.range 3).map fun c =>
        (List.range n).map fun j =>
          if j < 9 then (w.getD c []).getD j 0
          else if j % 2 = 0 then (dctBandWeights p48 n c).getD j 0
          else (dctBandWeights p44 n c).getD j 0).flatten
  | .dct p =>
      ((List.range 3).map fun c => dctBandWeights p n c).flatten
  | .raw t shift => t.map fun v : Int => (v : ℚ) * ((2 : ℚ) ^ shift)⁻¹

/-- Modelled from the spec (§4.3, §7): the validity checks of the table
builder.  A `RAW` table containing the integer 0 fails; a `RAW` table must
have exactly the shape's size (three channels of `shapeCoeffs i`
coefficients); every produced weight must be strictly positive (finiteness
is automatic for rationals); failure is a status, not a crash. -/
def computeShape (e : QuantEncoding) (i : Nat) : Option (List ℚ) :=
  match e with
  | .raw t _ =>
      if (0 : Int) ∈ t then none
      else if t.length ≠ 3 * shapeCoeffs i then none
      else if (buildShape e i).all (fun q => 0 < q) then some (buildShape e i) else none
  | _ =>
      if (buildShape e i).all (fun q => 0 < q) then some (buildShape e i) else none

/-- Modelled from the spec: the forward half of the buffer `Compute`
produces — the 11 logical shapes' tables back-to-back, failing if any
shape's construction fails. -/
def computeForward (encodings : List QuantEncoding) : Option (List ℚ) :=
  ((List.range kNum).mapM fun i =>
    computeShape (encodings.getD i (.library 0)) i).map List.flatten

/-- Modelled from the spec: `DequantMatrices::Compute` (in
`quant_weights.cc`, not among the sources).  Builds every logical shape's
forward table, stores the buffer as forward tables followed by their
elementwise reciprocals (the inverse tables), fills the offset table and
the size, and reports failure as a status. -/
def Compute (m : DequantMatrices) : Option DequantMatrices :=
  match computeForward m.encodings_ with
  | none => none
  | some fwd =>
      some { m with
        table_ := fwd ++ fwd.map (fun q => q⁻¹)
        table_offsets_ := standardOffsets
        size_ := 2 * kTotalTableSize }

/-- The member-initialized state of the default constructor before its
body runs: buffer of `2 * kTotalTableSize` floats allocated (contents
indeterminate, modelled as zeros), DC quantizers initialized from
`kDCQuant`/`kInvDCQuant`, offsets and size not yet computed. -/
def initState : DequantMatrices where
  table_ := List.replicate (2 * kTotalTableSize) 0
  dc_quant_ := kDCQuant
  inv_dc_quant_ := kInvDCQuant
  table_offsets_ := List.replicate (kNumValidStrategies * 3) 0
  size_ := 0
  encodings_ := []

/-- `DequantMatrices()`: resizes `encodings_` to the 11 `Library(0)`
entries, then `JXL_CHECK(Compute())` — a `Compute` failure at construction
aborts (fail fast). -/
def construct : OrAbort DequantMatrices :=
  let m0 := { initState with encodings_ := List.replicate kNum (.library 0) }
  match m0.Compute with
  | some m => .ok m
  | none => .abort m0

/-- The state default construction is expected to produce (proved equal to
the successful outcome of `construct` below): the all-ones default tables,
the default DC quantizers and the 11 `Library(0)` encodings. -/
def defaultMatrices : DequantMatrices where
  table_ := List.replicate (2 * kTotalTableSize) 1
  dc_quant_ := kDCQuant
  inv_dc_quant_ := kInvDCQuant
  table_offsets_ := standardOffsets
  size_ := 2 * kTotalTableSize
  encodings_ := List.replicate kNum (.library 0)

end DequantMatrices

/-- Modelled from the spec (§6): the abstract bit-level writer/reader is
self-describing enough for the round-trip law; the model's bitstream is a
token list of the primitives the codec writes (variable-length integers,
fixed-width fields, floats). -/
inductive Token where
  | nat (n : Nat)
  | int (i : Int)
  | rat (q : ℚ)
deriving DecidableEq, Repr

namespace Codec

/-- Read one unsigned integer token. -/
def readNat : List Token → Option (Nat × List Token)
  | .nat n :: rest => some (n, rest)
  | _ => none

/-- Read one signed integer token. -/
def readInt : List Token → Option (Int × List Token)
  | .int i :: rest => some (i, rest)
  | _ => none

/-- Read `n` float tokens. -/
def readRats : Nat → List Token → Option (List ℚ × List Token)
  | 0, ts => some ([], ts)
  | n + 1, .rat q :: ts =>
      match readRats n ts with
      | some (l, ts') => some (q :: l, ts')
      | none => none
  | _ + 1, _ => none

/-- Read `n` integer tokens. -/
def readInts : Nat → List Token → Option (List Int × List Token)
  | 0, ts => some ([], ts)
  | n + 1, .int i :: ts =>
      match readInts n ts with
      | some (l, ts') => some (i :: l, ts')
      | none => none
  | _ + 1, _ => none

/-- Modelled from the spec (§4.4): serialization of a `DctQuantWeightParams`
— the band count followed by exactly that many bands per channel. -/
def encodeParams (p : DctQuantWeightParams) : List Token :=
  Token.nat p.num_distance_bands ::
    ((List.range 3).map fun c =>
      ((p.distance_bands.getD c []).take p.num_distance_bands).map Token.rat).flatten

/-- Modelled from the spec (§4.4, §4.3): deserialization of a
`DctQuantWeightParams`.  The band count is validated against the supported
maximum `kMaxDistanceBands` (17); the unread tail of each channel array is
reconstructed as the zeros the constructor would leave there. -/
def decodeParams (ts : List Token) : Option (DctQuantWeightParams × List Token) := do
  let (num, ts) ← readNat ts
  if DctQuantWeightParams.kMaxDistanceBands < num then none
  else do
    let (c0, ts) ← readRats num ts
    let (c1, ts) ← readRats num ts
    let (c2, ts) ← readRats num ts
    some (⟨num, [c0, c1, c2].map fun ch =>
      ch ++ List.replicate (DctQuantWeightParams.kMaxDistanceBands - num) 0⟩, ts)

/-- Serialization of a 3 × `k` constant array, channel by channel. -/
def encodeChannels (w : List (List ℚ)) : List Token :=
  w.flatten.map Token.rat

/-- Deserialization of a 3 × `k` constant array. -/
def readChannels (k : Nat) (ts : List Token) :
    Option (List (List ℚ) × List Token) := do
  let (c0, ts) ← readRats k ts
  let (c1, ts) ← readRats k ts
  let (c2, ts) ← readRats k ts
  some ([c0, c1, c2], ts)

/-- Modelled from the spec (§4.4): per-entry serialization — the variant
tag, then only the fields relevant to that tag.  The `Library` tag carries
a copy flag (the bitstream supports referencing an earlier entry; this
encoder always writes the predefined-index form). -/
def encodeEntry : QuantEncoding → List Token
  | .library p => [.nat 0, .nat 0, .nat p]
  | .identity w => .nat 1 :: encodeChannels w
  | .dct2 w => .nat 2 :: encodeChannels w
  | .dct4 p mul => .nat 3 :: (encodeParams p ++ encodeChannels mul)
  | .dct4x8 p mul => .nat 4 :: (encodeParams p ++ mul.map Token.rat)
  | .afv p48 p44 w =>
      .nat 5 :: (encodeParams p48 ++ encodeParams p44 ++ encodeChannels w)
  | .dct p => .nat 6 :: encodeParams p
  | .raw t shift => [.nat 7, .int shift, .nat t.length] ++ t.map Token.int

/-- Modelled from the spec (§4.4): per-entry deserialization with
validation.  `idx` is the position of the entry being decoded and `prev`
the already-decoded entries.  A tag outside the 8 modes is a failure; a
band count above 17 is a failure (inside `decodeParams`); a copy reference
must name a strictly earlier, already-decoded entry or it is a failure —
all failures are a returned status, never a crash. -/
def decodeEntry (idx : Nat) (prev : List QuantEncoding) (ts : List Token) :
    Option (QuantEncoding × List Token) := do
  let (tag, ts) ← readNat ts
  if tag = 0 then do
    let (isCopy, ts) ← readNat ts
    if isCopy = 0 then do
      let (p, ts) ← readNat ts
      if p < kNumPredefinedTables then some (.library p, ts) else none
    else if isCopy = 1 then do
      let (j, ts) ← readNat ts
      if j < idx then some (prev.getD j (.library 0), ts) else none
    else none
  else if tag = 1 then do
    let (w, ts) ← readChannels 3 ts
    some (.identity w, ts)
  else if tag = 2 then do
    let (w, ts) ← readChannels 6 ts
    some (.dct2 w, ts)
  else if tag = 3 then do
    let (p, ts) ← decodeParams ts
    let (mul, ts) ← readChannels 2 ts
    some (.dct4 p mul, ts)
  else if tag = 4 then do
    let (p, ts) ← decodeParams ts
    let (mul, ts) ← readRats 3 ts
    some (.dct4x8 p mul, ts)
  else if tag = 5 then do
    let (p48, ts) ← decodeParams ts
    let (p44, ts) ← decodeParams ts
    let (w, ts) ← readChannels 9 ts
    some (.afv p48 p44 w, ts)
  else if tag = 6 then do
    let (p, ts) ← decodeParams ts
    some (.dct p, ts)
  else if tag = 7 then do
    let (shift, ts) ← readInt ts
    let (len, ts) ← readNat ts
    let (t, ts) ← readInts len ts
    some (.raw t shift, ts)
  else none

/-- Serialization of a whole quant-table set, entry after entry. -/
def encodeSet (es : List QuantEncoding) : List Token :=
  (es.map encodeEntry).flatten

/-- Deserialization of `n` entries, threading the already-decoded prefix
(for copy references). -/
def decodeEntries : Nat → List QuantEncoding → List Token →
    Option (List QuantEncoding × List Token)
  | 0, acc, ts => some (acc, ts)
  | n + 1, acc, ts => do
      let (e, ts') ← decodeEntry acc.length acc ts
      decodeEntries n (acc ++ [e]) ts'

end Codec

namespace DequantMatrices

/-- Modelled from the spec: `DequantMatrices::Encode` (in
`quant_weights.cc`, not among the sources) serializes the 11 encodings to
the bitstream. -/
def Encode (m : DequantMatrices) : List Token := Codec.encodeSet m.encodings_

/-- Modelled from the spec: `DequantMatrices::Decode` (in
`quant_weights.cc`, not among the sources) parses and validates the 11
encodings, stores them and invokes the table builder to regenerate the
numeric tables; any violation or builder failure is a failure status. -/
def Decode (m : DequantMatrices) (ts : List Token) : Option DequantMatrices := do
  let (es, _) ← Codec.decodeEntries kNum [] ts
  Compute { m with encodings_ := es }

/-- `SetCustom` from `quant_weights.h`: `JXL_ASSERT(encodings.size() == kNum)`
(fail fast on size mismatch), assign `encodings_ = encodings`, then
round-trip the matrices through the bitstream codec under `JXL_CHECK` — a
round-trip failure aborts rather than returning a status.  The abort
payload is the object state at the abort point. -/
def SetCustom (m : DequantMatrices) (encodings : List QuantEncoding) :
    OrAbort DequantMatrices :=
  if encodings.length ≠ kNum then .abort m
  else
    let m1 := { m with encodings_ := encodings }
    match m1.Decode m1.Encode with
    | none => .abort m1
    | some m2 => .ok m2

/-- Modelled from the spec: `DequantMatrices::EncodeDC` serializes the 3
inverse DC quantizers. -/
def EncodeDC (m : DequantMatrices) : List Token :=
  (m.inv_dc_quant_.take 3).map Token.rat

/-- Modelled from the spec: `DequantMatrices::DecodeDC` reads the 3 inverse
DC quantizers, validates that they are positive, and stores them together
with their reciprocals. -/
def DecodeDC (m : DequantMatrices) (ts : List Token) : Option DequantMatrices := do
  let (v, _) ← Codec.readRats 3 ts
  if v.all (fun q => 0 < q) then
    some { m with inv_dc_quant_ := v, dc_quant_ := v.map (fun q => 1 / q) }
  else none

/-- The state after `SetCustomDC`'s per-channel loop, before its round-trip
check: `dc_quant_[c] = 1.0f / dc[c]` and `inv_dc_quant_[c] = dc[c]`. -/
def withCustomDC (m : DequantMatrices) (dc : List ℚ) : DequantMatrices :=
  { m with
    dc_quant_ := (List.range 3).map fun c => 1 / dc.getD c 0
    inv_dc_quant_ := (List.range 3).map fun c => dc.getD c 0 }

/-- `SetCustomDC` from `quant_weights.h`: for each channel store
`dc_quant_[c] = 1.0f / dc[c]` and `inv_dc_quant_[c] = dc[c]`, then
round-trip the DC constants through the codec under `JXL_CHECK` (an abort,
not a status, on failure). -/
def SetCustomDC (m : DequantMatrices) (dc : List ℚ) : OrAbort DequantMatrices :=
  match (m.withCustomDC dc).DecodeDC (m.withCustomDC dc).EncodeDC with
  | none => .abort (m.withCustomDC dc)
  | some m2 => .ok m2

end DequantMatrices

/-- An explicit heap for studying the ownership discipline of the `RAW`
variant: a bump allocator of `std::vector<int>` cells, keyed by pointer
identifiers. -/
structure Heap where
  next : Nat
  cells : List (Nat × List Int)
deriving DecidableEq, Repr

namespace Heap

/-- The heap before any allocation. -/
def empty : Heap := ⟨0, []⟩

/-- `new std::vector<int>(v)`: allocate a fresh cell holding `v`. -/
def alloc (h : Heap) (v : List Int) : Heap × Nat :=
  ({ next := h.next + 1, cells := (h.next, v) :: h.cells }, h.next)

/-- Whether pointer `p` is live. -/
def allocated (h : Heap) (p : Nat) : Bool := h.cells.any fun c => c.1 = p

/-- `*p`: dereference; `none` on a dangling pointer (undefined behaviour). -/
def read (h : Heap) (p : Nat) : Option (List Int) :=
  (h.cells.find? fun c => c.1 = p).map Prod.snd

/-- `delete p`: release the cell; `none` on a double or invalid free
(undefined behaviour). -/
def free (h : Heap) (p : Nat) : Option Heap :=
  if h.allocated p then some { h with cells := h.cells.filter fun c => c.1 ≠ p }
  else none

/-- The allocator invariant: every live pointer is below the bump index. -/
def WF (h : Heap) : Prop := ∀ c ∈ h.cells, c.1 < h.next

instance (h : Heap) : Decidable (h.WF) := by unfold WF; infer_instance

end Heap

/-- The pointer-level (C++ object layout) view of `QuantEncoding`, used to
study the ownership discipline of the hand-written copy/move/destroy
special members: the mode tag, the `qraw` payload (a possibly-null owned
pointer plus the denominator shift) and, standing for the trivially-copied
numeric payload of the other variants, the `dct_params` and `predefined`
members.  Only `qraw.qtable` refers to heap memory. -/
structure QuantEncodingC where
  mode : Mode
  dct_params : DctQuantWeightParams := {}
  qtable : Option Nat := none
  qtable_den_shift : Int := 0
  predefined : Nat := 0
deriving DecidableEq, Repr

namespace QuantEncodingC

/-- `QuantEncoding::RAW(qtable, shift)`: `new std::vector<int>()`, then copy
the caller's table into the owned vector. -/
def RAW (h : Heap) (qtable : List Int) (shift : Int) : Heap × QuantEncodingC :=
  let (h1, p) := h.alloc qtable
  (h1, { mode := .kQuantModeRAW, qtable := some p, qtable_den_shift := shift })

/-- The copy constructor (`quant_weights.h:221`): base-copy every member
(including the table pointer), then, if `mode == kQuantModeRAW &&
qraw.qtable`, replace the pointer by `new std::vector<int>(*other.qraw.qtable)`.
Dereferencing a dangling table pointer is modelled as failure. -/
def copyCtor (h : Heap) (other : QuantEncodingC) : Option (Heap × QuantEncodingC) :=
  if other.mode = .kQuantModeRAW then
    match other.qtable with
    | some p =>
        match h.read p with
        | some v =>
            let (h1, q) := h.alloc v
            some (h1, { other with qtable := some q })
        | none => none
    | none => some (h, other)
  else some (h, other)

/-- The move constructor (`quant_weights.h:229`): base-copy every member
(stealing the table pointer), then, if `mode == kQuantModeRAW`, null the
source's table pointer.  Returns (constructed object, source after the
move); the heap is untouched. -/
def moveCtor (other : QuantEncodingC) : QuantEncodingC × QuantEncodingC :=
  if other.mode = .kQuantModeRAW then (other, { other with qtable := none })
  else (other, other)

/-- The copy assignment (`quant_weights.h:237`): if the target is `RAW`
with a table, `delete` it; base-assign every member from `other`; then, if
now `RAW` with a table, replace the pointer by a fresh copy of
`*other.qraw.qtable`. -/
def assign (h : Heap) (target other : QuantEncodingC) :
    Option (Heap × QuantEncodingC) :=
  match (if target.mode = .kQuantModeRAW then
           match target.qtable with
           | some p => h.free p
           | none => some h
         else some h) with
  | none => none
  | some h1 =>
      if other.mode = .kQuantModeRAW then
        match other.qtable with
        | some p =>
            match h1.read p with
            | some v =>
                let (h2, q) := h1.alloc v
                some (h2, { other with qtable := some q })
            | none => none
        | none => some (h1, other)
      else some (h1, other)

/-- The destructor (`quant_weights.h:250`): if `mode == kQuantModeRAW &&
qraw.qtable`, `delete qraw.qtable`. -/
def dtor (h : Heap) (x : QuantEncodingC) : Option Heap :=
  if x.mode = .kQuantModeRAW then
    match x.qtable with
    | some p => h.free p
    | none => some h
  else some h

end QuantEncodingC

/-!
## Theorems

Helper lemmas first, then one theorem per claim (with witnesses and
counterexamples where required).
-/

namespace DequantMatrices

lemma all_pos_replicate_one (n : Nat) :
    (List.replicate n (1 : ℚ)).all (fun q => decide (0 < q)) = true := by
  induction n with
  | zero => rfl
  | succ k ih => simp_all [List.replicate_succ]

lemma buildShape_library (p i : Nat) :
    buildShape (.library p) i = List.replicate (3 * shapeCoeffs i) 1 := rfl

lemma computeShape_library (p i : Nat) :
    computeShape (.library p) i = some (List.replicate (3 * shapeCoeffs i) 1) := by
  simp [computeShape, buildShape_library, libraryTable, all_pos_replicate_one]

lemma computeForward_default :
    computeForward (List.replicate kNum (.library 0)) =
      some (List.replicate kTotalTableSize 1) := by
  have hrange : List.range kNum =
      [0, 1, 2, 3, 4, 5] ++ [6, 7, 8, 9, 10] := rfl
  unfold computeForward
  rw [hrange]
  simp only [List.cons_append, List.nil_append]
  simp only [List.mapM_cons, List.mapM_nil, List.getD_eq_getElem?_getD,
    List.getElem?_replicate, kNum, computeShape_library]
  norm_num [computeShape_library, shapeCoeffs, required_size_, kDCTBlockSize,
    ← List.replicate_add, kTotalTableSize, ArraySum]

lemma Compute_default :
    ({ initState with encodings_ := List.replicate kNum (.library 0) } :
      DequantMatrices).Compute = some defaultMatrices := by
  unfold Compute
  rw [show ({ initState with encodings_ := List.replicate kNum (.library 0) } :
      DequantMatrices).encodings_ = List.replicate kNum (.library 0) from rfl]
  rw [computeForward_default]
  simp [defaultMatrices, initState, List.map_replicate, ← List.replicate_add, two_mul]

lemma construct_eq : construct = .ok defaultMatrices := by
  unfold construct
  simp only [Compute_default]

end DequantMatrices

/-- **C3**: default construction of `DequantMatrices` always succeeds: it
sets all 11 encodings to `Library(0)`, immediately runs `Compute`, and the
resulting tables (the forward and inverse halves of the buffer alike) are
strictly positive — and, being rationals in this model, finite — for all
11 logical shapes and all 3 channels. -/
theorem C3_default_construction_valid :
    DequantMatrices.construct = .ok DequantMatrices.defaultMatrices ∧
    DequantMatrices.defaultMatrices.encodings_ =
      List.replicate DequantMatrices.kNum (.library 0) ∧
    (∀ q ∈ DequantMatrices.defaultMatrices.table_, 0 < q) ∧
    (∀ k, k < DequantMatrices.kNumValidStrategies → ∀ c, c < 3 →
      ∀ q ∈ DequantMatrices.defaultMatrices.MatrixValues k c, 0 < q) := by
  refine ⟨DequantMatrices.construct_eq, rfl, ?_, ?_⟩
  · intro q hq
    rw [show DequantMatrices.defaultMatrices.table_ =
      List.replicate (2 * DequantMatrices.kTotalTableSize) 1 from rfl] at hq
    rw [List.eq_of_mem_replicate hq]
    norm_num
  · intro k _ c _ q hq
    have hq' : q ∈ DequantMatrices.defaultMatrices.table_ :=
      List.mem_of_mem_drop (List.mem_of_mem_take hq)
    rw [show DequantMatrices.defaultMatrices.table_ =
      List.replicate (2 * DequantMatrices.kTotalTableSize) 1 from rfl] at hq'
    rw [List.eq_of_mem_replicate hq']
    norm_num

/-- Witness for C3: the theorem applied at the concrete member `1` of the
default table and at shape/channel bounds. -/
theorem C3_default_construction_valid_witness :
    (0 : ℚ) < 1 ∧ DequantMatrices.construct = .ok DequantMatrices.defaultMatrices :=
  ⟨C3_default_construction_valid.2.2.1 1 (by
      rw [show DequantMatrices.defaultMatrices.table_ =
        List.replicate (2 * DequantMatrices.kTotalTableSize) 1 from rfl]
      exact List.mem_replicate.mpr ⟨by norm_num [DequantMatrices.kTotalTableSize,
        ArraySum, DequantMatrices.required_size_, kDCTBlockSize], rfl⟩),
   C3_default_construction_valid.1⟩

/-- **C4**: for a default-constructed `DequantMatrices`,
`DCQuant(0) = 1/4096`, `InvDCQuant(0) = 4096`, `DCQuant(1) = 1/512`,
`InvDCQuant(1) = 512`, `DCQuant(2) = 1/256`, `InvDCQuant(2) = 256`. -/
theorem C4_default_dc_quant :
    DequantMatrices.construct = .ok DequantMatrices.defaultMatrices ∧
    DequantMatrices.defaultMatrices.DCQuant 0 = 1 / 4096 ∧
    DequantMatrices.defaultMatrices.InvDCQuant 0 = 4096 ∧
    DequantMatrices.defaultMatrices.DCQuant 1 = 1 / 512 ∧
    DequantMatrices.defaultMatrices.InvDCQuant 1 = 512 ∧
    DequantMatrices.defaultMatrices.DCQuant 2 = 1 / 256 ∧
    DequantMatrices.defaultMatrices.InvDCQuant 2 = 256 := by
  refine ⟨DequantMatrices.construct_eq, ?_⟩
  norm_num [DequantMatrices.DCQuant, DequantMatrices.InvDCQuant,
    DequantMatrices.defaultMatrices, kDCQuant, kInvDCQuant]

/-- **C8**: programmer-error preconditions fail fast and are
non-recoverable: `Library(idx)` with `idx ≥ kNumPredefinedTables` (which
is 1) aborts rather than returning an error status, and `SetCustom` with a
vector whose size differs from the 11 logical tables trips its size
assertion (an abort), never a recoverable error status. -/
theorem C8_programmer_errors_fail_fast :
    kNumPredefinedTables = 1 ∧
    (∀ idx : Nat, kNumPredefinedTables ≤ idx →
      QuantEncoding.Library idx = .abort (.library idx)) ∧
    (∀ idx : Nat, idx < kNumPredefinedTables →
      QuantEncoding.Library idx = .ok (.library idx)) ∧
    (∀ (m : DequantMatrices) (es : List QuantEncoding),
      es.length ≠ DequantMatrices.kNum → m.SetCustom es = .abort m) := by
  refine ⟨rfl, ?_, ?_, ?_⟩
  · intro idx h
    simp [QuantEncoding.Library, Nat.not_lt.mpr h]
  · intro idx h
    simp [QuantEncoding.Library, h]
  · intro m es h
    simp [DequantMatrices.SetCustom, h]

/-- Witness for C8: `Library(1)` aborts and `SetCustom` with an empty
vector aborts. -/
theorem C8_programmer_errors_fail_fast_witness :
    QuantEncoding.Library 1 = .abort (.library 1) ∧
    DequantMatrices.initState.SetCustom [] = .abort DequantMatrices.initState :=
  ⟨C8_programmer_errors_fail_fast.2.1 1 (by norm_num [kNumPredefinedTables]),
   C8_programmer_errors_fail_fast.2.2.2 DequantMatrices.initState []
     (by norm_num [DequantMatrices.kNum])⟩

end Jxl

namespace Jxl
namespace DequantMatrices

lemma dctBandWeights_length (p : DctQuantWeightParams) (n c : Nat) :
    (dctBandWeights p n c).length = n := by
  unfold dctBandWeights
  rw [List.length_map, List.length_range]

lemma buildShape_length_nonraw (e : QuantEncoding) (i : Nat)
    (h : e.mode ≠ .kQuantModeRAW) :
    (buildShape e i).length = 3 * shapeCoeffs i := by
  have h3 : List.range 3 = [0, 1, 2] := rfl
  cases e with
  | library p => simp [buildShape_library]
  | raw t s => exact absurd rfl h
  | dct p => simp [buildShape, h3, dctBandWeights_length]; ring
  | identity w => simp [buildShape, h3]; ring
  | dct2 w => simp [buildShape, h3]; ring
  | dct4 p mul => simp [buildShape, h3]; ring
  | dct4x8 p mul => simp [buildShape, h3]; ring
  | afv p48 p44 w => simp [buildShape, h3]; ring

lemma computeShape_length (e : QuantEncoding) (i : Nat) (w : List ℚ)
    (h : computeShape e i = some w) : w.length = 3 * shapeCoeffs i := by
  cases e with
  | raw t s =>
      simp only [computeShape] at h
      split at h
      · exact absurd h (by simp)
      · split at h
        · exact absurd h (by simp)
        · split at h
          · have := Option.some.inj h
            rw [← this]
            show (t.map fun v : Int => (v : ℚ) * ((2 : ℚ) ^ s)⁻¹).length = 3 * shapeCoeffs i
            rw [List.length_map]
            omega
          · exact absurd h (by simp)
  | library p =>
      rw [computeShape_library] at h
      rw [← Option.some.inj h]
      simp
  | identity w' =>
      simp only [computeShape] at h
      split at h
      · rw [← Option.some.inj h]; exact buildShape_length_nonraw _ _ (by simp [QuantEncoding.mode])
      · exact absurd h (by simp)
  | dct2 w' =>
      simp only [computeShape] at h
      split at h
      · rw [← Option.some.inj h]; exact buildShape_length_nonraw _ _ (by simp [QuantEncoding.mode])
      · exact absurd h (by simp)
  | dct4 p mul =>
      simp only [computeShape] at h
      split at h
      · rw [← Option.some.inj h]; exact buildShape_length_nonraw _ _ (by simp [QuantEncoding.mode])
      · exact absurd h (by simp)
  | dct4x8 p mul =>
      simp only [computeShape] at h
      split at h
      · rw [← Option.some.inj h]; exact buildShape_length_nonraw _ _ (by simp [QuantEncoding.mode])
      · exact absurd h (by simp)
  | afv p48 p44 w' =>
      simp only [computeShape] at h
      split at h
      · rw [← Option.some.inj h]; exact buildShape_length_nonraw _ _ (by simp [QuantEncoding.mode])
      · exact absurd h (by simp)
  | dct p =>
      simp only [computeShape] at h
      split at h
      · rw [← Option.some.inj h]; exact buildShape_length_nonraw _ _ (by simp [QuantEncoding.mode])
      · exact absurd h (by simp)

end DequantMatrices
end Jxl

namespace Jxl

lemma mapM_option_forall2 {α β : Type} (f : α → Option β) :
    ∀ (l : List α) (ys : List β), l.mapM f = some ys →
      List.Forall₂ (fun a b => f a = some b) l ys := by
  intro l
  induction l with
  | nil =>
      intro ys h
      simp only [List.mapM_nil, Option.pure_def, Option.some.injEq] at h
      rw [← h]
      exact .nil
  | cons a l ih =>
      intro ys h
      rw [List.mapM_cons] at h
      cases hfa : f a with
      | none =>
          rw [hfa] at h
          simp at h
      | some b =>
          rw [hfa] at h
          cases hml : l.mapM f with
          | none =>
              rw [hml] at h
              simp at h
          | some bs =>
              rw [hml] at h
              simp at h
              rw [← h]
              exact .cons hfa (ih _ hml)

namespace DequantMatrices

lemma flatten_length_forall2 {l : List Nat} {ys : List (List ℚ)}
    (h : List.Forall₂ (fun i w => (w : List ℚ).length = 3 * shapeCoeffs i) l ys) :
    ys.flatten.length = (l.map fun i => 3 * shapeCoeffs i).sum := by
  induction h with
  | nil => rfl
  | cons h1 h2 ih => simp [List.flatten_cons, h1, ih]

lemma computeForward_length (es : List QuantEncoding) (fwd : List ℚ)
    (h : computeForward es = some fwd) : fwd.length = kTotalTableSize := by
  unfold computeForward at h
  cases hm : (List.range kNum).mapM
      (fun i => computeShape (es.getD i (.library 0)) i) with
  | none => rw [hm] at h; simp at h
  | some ys =>
      rw [hm] at h
      simp only [Option.map_some', Option.some.injEq] at h
      rw [← h]
      have h2 := mapM_option_forall2 _ _ _ hm
      have h3 : List.Forall₂ (fun i w => (w : List ℚ).length = 3 * shapeCoeffs i)
          (List.range kNum) ys :=
        List.Forall₂.imp (fun a b hab => computeShape_length _ _ _ hab) h2
      rw [flatten_length_forall2 h3]
      decide

end DequantMatrices
end Jxl

namespace Jxl
open DequantMatrices

/-- **C6**: the single aligned buffer holds all forward tables
back-to-back followed by all inverse tables and its size is exactly twice
`kTotalTableSize` floats, where `kTotalTableSize` is the sum over the 11
logical shapes of (blocks x 64 coefficients x 3 channels) with block
counts {1,1,1,1,4,16,2,4,8,1,1}, each the product of the corresponding
required x and y sizes; `InvMatrix` reads at the same per-(kind, channel)
offset as `Matrix`, displaced by `kTotalTableSize`. -/
theorem C6_buffer_layout :
    required_size_ = List.zipWith (· * ·) required_size_x_ required_size_y_ ∧
    required_size_ = [1, 1, 1, 1, 4, 16, 2, 4, 8, 1, 1] ∧
    kTotalTableSize = ArraySum required_size_ * kDCTBlockSize * 3 ∧
    kTotalTableSize = 40 * 64 * 3 ∧
    initState.table_.length = 2 * kTotalTableSize ∧
    defaultMatrices.table_.length = 2 * kTotalTableSize ∧
    (∀ (m : DequantMatrices) (k c : Nat),
      m.InvMatrix k c = m.Matrix k c + kTotalTableSize) ∧
    (∀ m0 m : DequantMatrices, m0.Compute = some m →
      m.table_.length = 2 * kTotalTableSize ∧
      ∃ fwd : List ℚ, fwd.length = kTotalTableSize ∧
        m.table_ = fwd ++ fwd.map fun q => q⁻¹) := by
  refine ⟨by decide, by decide, rfl, by decide, ?_, ?_, ?_, ?_⟩
  · simp [initState]
  · show (List.replicate (2 * kTotalTableSize) (1 : ℚ)).length = 2 * kTotalTableSize
    simp
  · intro m k c
    show InvTable + m.MatrixOffset k c = m.MatrixOffset k c + kTotalTableSize
    show kTotalTableSize + m.MatrixOffset k c = m.MatrixOffset k c + kTotalTableSize
    omega
  · intro m0 m h
    unfold Compute at h
    cases hcf : computeForward m0.encodings_ with
    | none => rw [hcf] at h; exact absurd h (by simp)
    | some fwd =>
        rw [hcf] at h
        have hm := Option.some.inj h
        have hlen := computeForward_length _ _ hcf
        constructor
        · rw [← hm]
          simp [hlen]
          omega
        · exact ⟨fwd, hlen, by rw [← hm]⟩

/-- Witness for C6: the layout facts instantiated at the
default-constructed matrices. -/
theorem C6_buffer_layout_witness :
    defaultMatrices.InvMatrix 0 0 = defaultMatrices.Matrix 0 0 + kTotalTableSize ∧
    defaultMatrices.table_.length = 2 * kTotalTableSize ∧
    ∃ fwd : List ℚ, fwd.length = kTotalTableSize ∧
      defaultMatrices.table_ = fwd ++ fwd.map fun q => q⁻¹ :=
  ⟨C6_buffer_layout.2.2.2.2.2.2.1 defaultMatrices 0 0,
   (C6_buffer_layout.2.2.2.2.2.2.2
     { initState with encodings_ := List.replicate kNum (.library 0) }
     defaultMatrices Compute_default).1,
   (C6_buffer_layout.2.2.2.2.2.2.2
     { initState with encodings_ := List.replicate kNum (.library 0) }
     defaultMatrices Compute_default).2⟩

end Jxl

namespace Jxl
namespace DequantMatrices

lemma standardOffsets_getD :
    ∀ k < kNumValidStrategies, ∀ c < 3,
      standardOffsets.getD (k * 3 + c) 0 =
        shapeStart (kQuantTable.getD k 0) + c * shapeCoeffs (kQuantTable.getD k 0) := by
  decide

end DequantMatrices

open DequantMatrices

/-- **C5**: the fixed static table `kQuantTable` maps each of the 18
transform kinds to one of the 11 logical quant tables, and for any two
kinds mapped to the same logical table, `Matrix(kind1, c)` and
`Matrix(kind2, c)` are the same pointer — hence reference the same
underlying weight values — for every channel `c` in {0,1,2} (for any state
whose offset table was filled by `Compute`). -/
theorem C5_shared_logical_tables :
    kQuantTable.length = kNumValidStrategies ∧
    (∀ t ∈ kQuantTable, t < kNum) ∧
    (∀ m0 m : DequantMatrices, m0.Compute = some m →
      m.table_offsets_ = standardOffsets) ∧
    ∀ m : DequantMatrices, m.table_offsets_ = standardOffsets →
      ∀ k1, k1 < kNumValidStrategies → ∀ k2, k2 < kNumValidStrategies →
        kQuantTable.getD k1 0 = kQuantTable.getD k2 0 →
        ∀ c, c < 3 →
          m.Matrix k1 c = m.Matrix k2 c ∧
          m.MatrixValues k1 c = m.MatrixValues k2 c := by
  refine ⟨rfl, by decide, ?_, ?_⟩
  · intro m0 m h
    unfold Compute at h
    cases hcf : computeForward m0.encodings_ with
    | none => rw [hcf] at h; exact absurd h (by simp)
    | some fwd => rw [hcf] at h; rw [← Option.some.inj h]
  · intro m hoff k1 hk1 k2 hk2 heq c hc
    have h1 := standardOffsets_getD k1 hk1 c hc
    have h2 := standardOffsets_getD k2 hk2 c hc
    have hM : m.Matrix k1 c = m.Matrix k2 c := by
      show m.MatrixOffset k1 c = m.MatrixOffset k2 c
      unfold MatrixOffset
      rw [hoff, h1, h2, heq]
    exact ⟨hM, by unfold MatrixValues; rw [hM, heq]⟩

/-- Witness for C5: the two kinds mapped to `DCT8X16` (strategies 6
and 7) share their channel-0 matrix in the default state. -/
theorem C5_shared_logical_tables_witness :
    defaultMatrices.Matrix 6 0 = defaultMatrices.Matrix 7 0 ∧
    defaultMatrices.MatrixValues 6 0 = defaultMatrices.MatrixValues 7 0 :=
  C5_shared_logical_tables.2.2.2 defaultMatrices rfl
    6 (by norm_num [kNumValidStrategies]) 7 (by norm_num [kNumValidStrategies])
    (by decide) 0 (by norm_num)

end Jxl

namespace Jxl
namespace Codec

lemma readRats_append (l : List ℚ) (rest : List Token) :
    readRats l.length (l.map Token.rat ++ rest) = some (l, rest) := by
  induction l with
  | nil => rfl
  | cons q l ih => simp [readRats, ih]

lemma readRats_append_of_len (k : Nat) (l : List ℚ) (rest : List Token)
    (h : l.length = k) :
    readRats k (l.map Token.rat ++ rest) = some (l, rest) :=
  h ▸ readRats_append l rest

lemma readInts_append (l : List Int) (rest : List Token) :
    readInts l.length (l.map Token.int ++ rest) = some (l, rest) := by
  induction l with
  | nil => rfl
  | cons v l ih => simp [readInts, ih]

lemma readChannels_append (k : Nat) (a b c : List ℚ) (rest : List Token)
    (ha : a.length = k) (hb : b.length = k) (hc : c.length = k) :
    readChannels k (encodeChannels [a, b, c] ++ rest) = some ([a, b, c], rest) := by
  have hstream : encodeChannels [a, b, c] ++ rest =
      a.map Token.rat ++ (b.map Token.rat ++ (c.map Token.rat ++ rest)) := by
    simp [encodeChannels, List.append_assoc]
  rw [hstream]
  unfold readChannels
  rw [readRats_append_of_len k a _ ha]
  simp only [Option.bind_eq_bind, Option.some_bind]
  rw [readRats_append_of_len k b _ hb]
  simp only [Option.bind_eq_bind, Option.some_bind]
  rw [readRats_append_of_len k c _ hc]
  simp only [Option.bind_eq_bind, Option.some_bind]

lemma pad_take_eq (d : List ℚ) (num : Nat) (hlen : d.length = 17)
    (hz : ∀ q ∈ d.drop num, q = 0) :
    d.take num ++ List.replicate (17 - num) (0 : ℚ) = d := by
  have hrep : d.drop num = List.replicate (d.drop num).length 0 :=
    List.eq_replicate_of_mem hz
  have hlen2 : (d.drop num).length = 17 - num := by
    rw [List.length_drop, hlen]
  rw [← hlen2, ← hrep, List.take_append_drop]

lemma decodeParams_encodeParams (p : DctQuantWeightParams)
    (hp : p.WellFormed) (rest : List Token) :
    decodeParams (encodeParams p ++ rest) = some (p, rest) := by
  obtain ⟨hnum, hlen3, hch⟩ := hp
  have hnum17 : p.num_distance_bands ≤ 17 := by
    rw [show DctQuantWeightParams.kMaxDistanceBands = 17 from rfl] at hnum
    exact hnum
  obtain ⟨d0, d1, d2, hd⟩ := List.length_eq_three.mp hlen3
  have h0 := hch d0 (by rw [hd]; exact .head _)
  have h1 := hch d1 (by rw [hd]; exact .tail _ (.head _))
  have h2 := hch d2 (by rw [hd]; exact .tail _ (.tail _ (.head _)))
  have hstream : encodeParams p ++ rest =
      Token.nat p.num_distance_bands ::
        ((d0.take p.num_distance_bands).map Token.rat ++
          ((d1.take p.num_distance_bands).map Token.rat ++
            ((d2.take p.num_distance_bands).map Token.rat ++ rest))) := by
    simp [encodeParams, hd, List.append_assoc, List.range_succ]
  rw [hstream]
  unfold decodeParams
  rw [readNat]
  simp only [Option.bind_eq_bind, Option.some_bind,
    show DctQuantWeightParams.kMaxDistanceBands = 17 from rfl]
  rw [if_neg (by omega)]
  have htake : ∀ d : List ℚ, d.length = DctQuantWeightParams.kMaxDistanceBands →
      (d.take p.num_distance_bands).length = p.num_distance_bands := by
    intro d hdl
    rw [List.length_take]
    rw [show DctQuantWeightParams.kMaxDistanceBands = 17 from rfl] at hdl
    omega
  rw [readRats_append_of_len _ _ _ (htake d0 h0.1)]
  simp only [Option.bind_eq_bind, Option.some_bind]
  rw [readRats_append_of_len _ _ _ (htake d1 h1.1)]
  simp only [Option.bind_eq_bind, Option.some_bind]
  rw [readRats_append_of_len _ _ _ (htake d2 h2.1)]
  simp only [Option.bind_eq_bind, Option.some_bind, Option.some.injEq, Prod.mk.injEq]
  refine ⟨?_, trivial⟩
  have hrec : ∀ d : List ℚ, d.length = DctQuantWeightParams.kMaxDistanceBands →
      (∀ q ∈ d.drop p.num_distance_bands, q = 0) →
      d.take p.num_distance_bands ++
        List.replicate (17 - p.num_distance_bands) (0 : ℚ) = d := by
    intro d hdl hdz
    exact pad_take_eq d p.num_distance_bands
      (by rw [hdl]; rfl) hdz
  rcases p with ⟨num, bands⟩
  simp only at hd
  subst hd
  simp only [DctQuantWeightParams.mk.injEq, true_and]
  simp only [List.map_cons, List.map_nil]
  rw [hrec d0 h0.1 h0.2, hrec d1 h1.1 h1.2, hrec d2 h2.1 h2.2]

end Codec
end Jxl

namespace Jxl
namespace Codec

lemma decodeEntry_encodeEntry (e : QuantEncoding) (he : e.WellFormed)
    (idx : Nat) (prev : List QuantEncoding) (rest : List Token) :
    decodeEntry idx prev (encodeEntry e ++ rest) = some (e, rest) := by
  cases e with
  | library p =>
      have hp : p < kNumPredefinedTables := he
      show decodeEntry idx prev
        (Token.nat 0 :: Token.nat 0 :: Token.nat p :: rest) = some (.library p, rest)
      unfold decodeEntry
      rw [readNat]
      simp only [Option.bind_eq_bind, Option.some_bind, reduceIte]
      simp [readNat, hp]
  | identity w =>
      obtain ⟨hl3, hch⟩ := he
      obtain ⟨a, b, c, rfl⟩ := List.length_eq_three.mp hl3
      have ha := hch a (.head _)
      have hb := hch b (.tail _ (.head _))
      have hc := hch c (.tail _ (.tail _ (.head _)))
      show decodeEntry idx prev
        (Token.nat 1 :: (encodeChannels [a, b, c] ++ rest)) = _
      unfold decodeEntry
      rw [readNat]
      simp only [Option.bind_eq_bind, Option.some_bind, reduceIte]
      rw [readChannels_append 3 a b c rest ha hb hc]
      simp
  | dct2 w =>
      obtain ⟨hl3, hch⟩ := he
      obtain ⟨a, b, c, rfl⟩ := List.length_eq_three.mp hl3
      have ha := hch a (.head _)
      have hb := hch b (.tail _ (.head _))
      have hc := hch c (.tail _ (.tail _ (.head _)))
      show decodeEntry idx prev
        (Token.nat 2 :: (encodeChannels [a, b, c] ++ rest)) = _
      unfold decodeEntry
      rw [readNat]
      simp only [Option.bind_eq_bind, Option.some_bind, reduceIte]
      rw [readChannels_append 6 a b c rest ha hb hc]
      simp
  | dct4 pr mul =>
      obtain ⟨hpr, hl3, hch⟩ := he
      obtain ⟨a, b, c, rfl⟩ := List.length_eq_three.mp hl3
      have ha := hch a (.head _)
      have hb := hch b (.tail _ (.head _))
      have hc := hch c (.tail _ (.tail _ (.head _)))
      show decodeEntry idx prev
        (Token.nat 3 :: (encodeParams pr ++ encodeChannels [a, b, c] ++ rest)) = _
      unfold decodeEntry
      rw [readNat]
      simp only [Option.bind_eq_bind, Option.some_bind, reduceIte]
      rw [List.append_assoc, decodeParams_encodeParams pr hpr]
      simp only [Option.bind_eq_bind, Option.some_bind]
      rw [readChannels_append 2 a b c rest ha hb hc]
      simp
  | dct4x8 pr mul =>
      obtain ⟨hpr, hl3⟩ := he
      show decodeEntry idx prev
        (Token.nat 4 :: (encodeParams pr ++ mul.map Token.rat ++ rest)) = _
      unfold decodeEntry
      rw [readNat]
      simp only [Option.bind_eq_bind, Option.some_bind, reduceIte]
      rw [List.append_assoc, decodeParams_encodeParams pr hpr]
      simp only [Option.bind_eq_bind, Option.some_bind]
      rw [readRats_append_of_len 3 mul rest hl3]
      simp
  | afv p48 p44 w =>
      obtain ⟨h48, h44, hl3, hch⟩ := he
      obtain ⟨a, b, c, rfl⟩ := List.length_eq_three.mp hl3
      have ha := hch a (.head _)
      have hb := hch b (.tail _ (.head _))
      have hc := hch c (.tail _ (.tail _ (.head _)))
      show decodeEntry idx prev
        (Token.nat 5 :: (encodeParams p48 ++ encodeParams p44 ++
          encodeChannels [a, b, c] ++ rest)) = _
      unfold decodeEntry
      rw [readNat]
      simp only [Option.bind_eq_bind, Option.some_bind, reduceIte]
      rw [List.append_assoc, List.append_assoc, decodeParams_encodeParams p48 h48]
      simp only [Option.bind_eq_bind, Option.some_bind]
      rw [decodeParams_encodeParams p44 h44]
      simp only [Option.bind_eq_bind, Option.some_bind]
      rw [readChannels_append 9 a b c rest ha hb hc]
      simp
  | dct pr =>
      have hpr : pr.WellFormed := he
      show decodeEntry idx prev (Token.nat 6 :: (encodeParams pr ++ rest)) = _
      unfold decodeEntry
      rw [readNat]
      simp only [Option.bind_eq_bind, Option.some_bind, reduceIte]
      rw [decodeParams_encodeParams pr hpr]
      simp
  | raw t s =>
      show decodeEntry idx prev
        (Token.nat 7 :: Token.int s :: Token.nat t.length ::
          (t.map Token.int ++ rest)) = _
      unfold decodeEntry
      rw [readNat]
      simp only [Option.bind_eq_bind, Option.some_bind, reduceIte]
      rw [readInt]
      simp only [Option.bind_eq_bind, Option.some_bind]
      rw [readNat]
      simp only [Option.bind_eq_bind, Option.some_bind]
      rw [readInts_append]
      simp

end Codec
end Jxl

namespace Jxl
namespace Codec

lemma decodeEntries_encodeSet (es : List QuantEncoding)
    (hwf : ∀ e ∈ es, e.WellFormed) :
    ∀ (acc : List QuantEncoding) (rest : List Token),
      decodeEntries es.length acc (encodeSet es ++ rest) = some (acc ++ es, rest) := by
  induction es with
  | nil =>
      intro acc rest
      simp [decodeEntries, encodeSet]
  | cons e es ih =>
      intro acc rest
      have he : e.WellFormed := hwf e (.head _)
      have hes : ∀ x ∈ es, x.WellFormed := fun x hx => hwf x (.tail _ hx)
      have hstream : encodeSet (e :: es) ++ rest =
          encodeEntry e ++ (encodeSet es ++ rest) := by
        simp [encodeSet, List.append_assoc]
      rw [List.length_cons, hstream]
      show (do
        let p ← decodeEntry acc.length acc (encodeEntry e ++ (encodeSet es ++ rest))
        decodeEntries es.length (acc ++ [p.1]) p.2) = some (acc ++ e :: es, rest)
      rw [decodeEntry_encodeEntry e he]
      simp only [Option.bind_eq_bind, Option.some_bind]
      rw [ih hes (acc ++ [e]) rest]
      simp

end Codec
end Jxl

namespace Jxl
namespace Codec

lemma decodeEntries_encodeSet_closed (es : List QuantEncoding)
    (hlen : es.length = DequantMatrices.kNum) (hwf : ∀ e ∈ es, e.WellFormed) :
    decodeEntries DequantMatrices.kNum [] (encodeSet es) = some (es, []) := by
  have h := decodeEntries_encodeSet es hwf [] []
  rw [List.append_nil, hlen] at h
  simpa using h

end Codec

namespace DequantMatrices

lemma Decode_Encode_self (m : DequantMatrices)
    (hlen : m.encodings_.length = kNum)
    (hwf : ∀ e ∈ m.encodings_, e.WellFormed) :
    m.Decode m.Encode = m.Compute := by
  unfold Decode Encode
  rw [Codec.decodeEntries_encodeSet_closed _ hlen hwf]
  simp only [Option.bind_eq_bind, Option.some_bind]

lemma SetCustom_eq (m : DequantMatrices) (es : List QuantEncoding)
    (hlen : es.length = kNum) (hwf : ∀ e ∈ es, e.WellFormed) :
    m.SetCustom es =
      match ({ m with encodings_ := es } : DequantMatrices).Compute with
      | some m2 => .ok m2
      | none => .abort { m with encodings_ := es } := by
  unfold SetCustom
  rw [if_neg (by omega)]
  show (match ({ m with encodings_ := es } : DequantMatrices).Decode
      ({ m with encodings_ := es } : DequantMatrices).Encode with
    | none => OrAbort.abort ({ m with encodings_ := es } : DequantMatrices)
    | some m2 => OrAbort.ok m2) = _
  rw [Decode_Encode_self { m with encodings_ := es } (by simpa using hlen)
    (by simpa using hwf)]
  cases ({ m with encodings_ := es } : DequantMatrices).Compute <;> rfl

end DequantMatrices

open DequantMatrices Codec in
/-- **C1**: for every valid quant-table-set value (11 entries constructible
through the public constructors), decoding the bitstream produced by
encoding it reconstructs a value whose `Compute`-derived forward and
inverse tables are element-wise identical to those computed from the
original; and `SetCustom` performs this encode/decode round trip
synchronously after every custom-table assignment, installing exactly the
tables computed from the given encodings. -/
theorem C1_encode_decode_roundtrip (es : List QuantEncoding)
    (hlen : es.length = DequantMatrices.kNum)
    (hwf : ∀ e ∈ es, e.WellFormed) :
    decodeEntries DequantMatrices.kNum [] (encodeSet es) = some (es, []) ∧
    (∀ es' rest, decodeEntries DequantMatrices.kNum [] (encodeSet es) =
        some (es', rest) →
      computeForward es' = computeForward es ∧
      (computeForward es').map (List.map fun q => q⁻¹) =
        (computeForward es).map (List.map fun q => q⁻¹)) ∧
    ∀ (m : DequantMatrices) (fwd : List ℚ), computeForward es = some fwd →
      m.SetCustom es = .ok { m with
        encodings_ := es
        table_ := fwd ++ fwd.map fun q => q⁻¹
        table_offsets_ := standardOffsets
        size_ := 2 * kTotalTableSize } := by
  have hdec := decodeEntries_encodeSet_closed es hlen hwf
  refine ⟨hdec, ?_, ?_⟩
  · intro es' rest h
    rw [hdec] at h
    obtain ⟨h1, h2⟩ := Prod.mk.injEq .. ▸ Option.some.inj h
    rw [← h1]
    exact ⟨rfl, rfl⟩
  · intro m fwd hfwd
    rw [SetCustom_eq m es hlen hwf]
    have hc : ({ m with encodings_ := es } : DequantMatrices).Compute =
        some { m with
          encodings_ := es
          table_ := fwd ++ fwd.map fun q => q⁻¹
          table_offsets_ := standardOffsets
          size_ := 2 * kTotalTableSize } := by
      unfold Compute
      rw [show ({ m with encodings_ := es } : DequantMatrices).encodings_ = es from rfl]
      rw [hfwd]
    rw [hc]

open DequantMatrices Codec in
/-- Witness for C1: the round trip at the default 11 `Library(0)`
encodings, whose tables compute to the all-ones default. -/
theorem C1_encode_decode_roundtrip_witness :
    decodeEntries DequantMatrices.kNum []
      (encodeSet (List.replicate DequantMatrices.kNum (.library 0))) =
      some (List.replicate DequantMatrices.kNum (.library 0), []) ∧
    DequantMatrices.defaultMatrices.SetCustom
      (List.replicate DequantMatrices.kNum (.library 0)) =
      .ok DequantMatrices.defaultMatrices := by
  have h := C1_encode_decode_roundtrip
    (List.replicate DequantMatrices.kNum (.library 0)) (by simp) (by decide)
  refine ⟨h.1, ?_⟩
  have h2 := h.2.2 defaultMatrices (List.replicate kTotalTableSize 1)
    computeForward_default
  rw [h2]
  have htab : List.replicate kTotalTableSize (1 : ℚ) ++
      (List.replicate kTotalTableSize (1 : ℚ)).map (fun q => q⁻¹) =
      List.replicate (2 * kTotalTableSize) (1 : ℚ) := by
    rw [List.map_replicate]
    norm_num [← List.replicate_add, two_mul]
  rw [htab]
  rfl

end Jxl

namespace Jxl

lemma mapM_option_none_of_mem {α β : Type} (f : α → Option β) :
    ∀ (l : List α) (a : α), a ∈ l → f a = none → l.mapM f = none := by
  intro l
  induction l with
  | nil => intro a ha _; cases ha
  | cons b l ih =>
      intro a ha hfa
      rw [List.mapM_cons]
      rcases List.mem_cons.mp ha with rfl | ha'
      · rw [hfa]; rfl
      · cases hfb : f b with
        | none => rfl
        | some c =>
            rw [ih a ha' hfa]
            rfl

namespace DequantMatrices

lemma computeShape_raw_zero (t : List Int) (s : Int) (i : Nat)
    (h : (0 : Int) ∈ t) : computeShape (.raw t s) i = none := by
  simp [computeShape, h]

lemma computeForward_raw_zero (es : List QuantEncoding) (i : Nat) (t : List Int)
    (s : Int) (hi : i < kNum) (hraw : es.getD i (.library 0) = .raw t s)
    (hzero : (0 : Int) ∈ t) : computeForward es = none := by
  unfold computeForward
  have hf : computeShape (es.getD i (.library 0)) i = none := by
    rw [hraw]; exact computeShape_raw_zero t s i hzero
  rw [mapM_option_none_of_mem (fun j => computeShape (es.getD j (.library 0)) j)
    (List.range kNum) i (List.mem_range.mpr hi) hf]
  rfl

lemma Compute_raw_zero (m : DequantMatrices) (i : Nat) (t : List Int) (s : Int)
    (hi : i < kNum) (hraw : m.encodings_.getD i (.library 0) = .raw t s)
    (hzero : (0 : Int) ∈ t) : m.Compute = none := by
  unfold Compute
  rw [computeForward_raw_zero m.encodings_ i t s hi hraw hzero]

end DequantMatrices

open DequantMatrices Codec in
/-- **C2 (amended)**: calling `SetCustom` with 11 well-formed entries where
some entry is a `RAW` encoding whose integer table contains a zero fail-fast
aborts (the `JXL_CHECK` around the round-trip decode fires when the table
builder rejects the zero), rather than returning a recoverable failure
status; at the abort point the previously installed encodings have already
been overwritten by the new ones (the assignment precedes the validation),
while the previously computed tables are unchanged. -/
theorem C2_raw_zero_aborts (m : DequantMatrices) (es : List QuantEncoding)
    (i : Nat) (t : List Int) (s : Int)
    (hlen : es.length = kNum) (hwf : ∀ e ∈ es, e.WellFormed)
    (hi : i < kNum) (hraw : es.getD i (.library 0) = .raw t s)
    (hzero : (0 : Int) ∈ t) :
    m.SetCustom es = .abort { m with encodings_ := es } ∧
    ({ m with encodings_ := es } : DequantMatrices).table_ = m.table_ ∧
    ({ m with encodings_ := es } : DequantMatrices).encodings_ = es := by
  refine ⟨?_, rfl, rfl⟩
  rw [SetCustom_eq m es hlen hwf]
  rw [Compute_raw_zero { m with encodings_ := es } i t s hi
    (by rw [show ({ m with encodings_ := es } : DequantMatrices).encodings_ = es
      from rfl]; exact hraw) hzero]

open DequantMatrices Codec in
/-- Witness for C2 (amended): a concrete run with entry 3 a `RAW` table
holding a zero. -/
theorem C2_raw_zero_aborts_witness :
    DequantMatrices.initState.SetCustom
      ((List.replicate kNum (QuantEncoding.library 0)).set 3 (.raw [5, 0] 2)) =
      .abort { DequantMatrices.initState with
        encodings_ := (List.replicate kNum
          (QuantEncoding.library 0)).set 3 (.raw [5, 0] 2) } :=
  (C2_raw_zero_aborts DequantMatrices.initState _ 3 [5, 0] 2 (by decide)
    (by decide) (by decide) (by decide) (by decide)).1

open DequantMatrices Codec in
/-- Counterexample for C2 as stated: at the concrete input of the spec's
scenario (11 entries, entry 5 a `RAW` table containing a literal 0, applied
to the default-constructed state), `SetCustom` does not report a failure —
it aborts — and it does not leave the previously installed encodings
unchanged: the state observable at the abort point carries the new
encodings, which differ from the prior ones. -/
theorem C2_counterexample :
    DequantMatrices.defaultMatrices.SetCustom
      ((List.replicate kNum (QuantEncoding.library 0)).set 5
        (.raw [0, 1, 2] 0)) =
      .abort { DequantMatrices.defaultMatrices with
        encodings_ := (List.replicate kNum
          (QuantEncoding.library 0)).set 5 (.raw [0, 1, 2] 0) } ∧
    (List.replicate kNum (QuantEncoding.library 0)).set 5 (.raw [0, 1, 2] 0) ≠
      DequantMatrices.defaultMatrices.encodings_ := by
  constructor
  · rw [SetCustom_eq _ _ (by decide) (by decide)]
    rw [Compute_raw_zero _ 5 [0, 1, 2] 0 (by decide) (by decide) (by decide)]
  · decide

end Jxl

namespace Jxl

open Codec in
/-- **C9**: `Decode` rejects malformed bitstreams by returning a failure
status (the decoder is a total function into `Option`, so it cannot
crash): it validates the variant tag (only the 8 modes are accepted),
validates that every distance-band count is at most the supported maximum
of 17 (`kMaxDistanceBands = 1 + 2^4`), and validates that any
copy-from-earlier-entry reference names a strictly earlier, already-decoded
entry. -/
theorem C9_decode_validates_malformed_input :
    DctQuantWeightParams.kMaxDistanceBands = 1 + 2 ^ 4 ∧
    DctQuantWeightParams.kMaxDistanceBands = 17 ∧
    (∀ (idx : Nat) (prev : List QuantEncoding) (tag : Nat) (rest : List Token),
      8 ≤ tag → decodeEntry idx prev (.nat tag :: rest) = none) ∧
    (∀ (num : Nat) (rest : List Token), 17 < num →
      decodeParams (.nat num :: rest) = none) ∧
    (∀ (idx j : Nat) (prev : List QuantEncoding) (rest : List Token), idx ≤ j →
      decodeEntry idx prev (.nat 0 :: .nat 1 :: .nat j :: rest) = none) := by
  refine ⟨rfl, rfl, ?_, ?_, ?_⟩
  · intro idx prev tag rest htag
    unfold decodeEntry
    rw [readNat]
    simp only [Option.bind_eq_bind, Option.some_bind]
    iterate 8 rw [if_neg (show _ by omega)]
  · intro num rest hnum
    unfold decodeParams
    rw [readNat]
    simp only [Option.bind_eq_bind, Option.some_bind]
    rw [if_pos (by
      rw [show DctQuantWeightParams.kMaxDistanceBands = 17 from rfl]
      omega)]
  · intro idx j prev rest hj
    unfold decodeEntry
    rw [readNat]
    simp only [Option.bind_eq_bind, Option.some_bind, reduceIte]
    rw [readNat]
    simp only [Option.bind_eq_bind, Option.some_bind, reduceIte]
    rw [readNat]
    simp only [Option.bind_eq_bind, Option.some_bind]
    exact if_neg (show ¬(j < idx) by omega)

open Codec in
/-- Witness for C9: the three rejections at concrete malformed streams —
tag 8, band count 18, and a copy reference to entry 0 while decoding
entry 0. -/
theorem C9_decode_validates_malformed_input_witness :
    decodeEntry 0 [] [.nat 8] = none ∧
    decodeParams [.nat 18] = none ∧
    decodeEntry 0 [] [.nat 0, .nat 1, .nat 0] = none :=
  ⟨C9_decode_validates_malformed_input.2.2.1 0 [] 8 [] (by omega),
   C9_decode_validates_malformed_input.2.2.2.1 18 [] (by omega),
   C9_decode_validates_malformed_input.2.2.2.2 0 0 [] [] (by omega)⟩

open DequantMatrices Codec in
/-- **C10**: for every input array `dc` of 3 positive floats, after
`SetCustomDC(dc)` returns, `InvDCQuant(c) = dc[c]` and
`DCQuant(c) = 1.0f / dc[c]` for each channel `c` in {0,1,2}: the passed
values are stored verbatim as the inverse DC quantizers and their
reciprocals as the DC quantizers (and survive the synchronous DC
round-trip check). -/
theorem C10_setcustomdc_stores_values (m : DequantMatrices) (dc : List ℚ)
    (hlen : dc.length = 3) (hpos : ∀ q ∈ dc, 0 < q) :
    ∃ m2, m.SetCustomDC dc = .ok m2 ∧
      ∀ c, c < 3 → m2.InvDCQuant c = dc.getD c 0 ∧
        m2.DCQuant c = 1 / dc.getD c 0 := by
  obtain ⟨a, b, c, rfl⟩ := List.length_eq_three.mp hlen
  have ha : (0 : ℚ) < a := hpos a (.head _)
  have hb : (0 : ℚ) < b := hpos b (.tail _ (.head _))
  have hc : (0 : ℚ) < c := hpos c (.tail _ (.tail _ (.head _)))
  refine ⟨{ (m.withCustomDC [a, b, c]) with
    inv_dc_quant_ := [a, b, c]
    dc_quant_ := [a, b, c].map fun q => 1 / q }, ?_, ?_⟩
  · unfold SetCustomDC
    have hdec : (m.withCustomDC [a, b, c]).DecodeDC
        (m.withCustomDC [a, b, c]).EncodeDC =
        some { (m.withCustomDC [a, b, c]) with
          inv_dc_quant_ := [a, b, c]
          dc_quant_ := [a, b, c].map fun q => 1 / q } := by
      unfold DecodeDC EncodeDC
      rw [show ((m.withCustomDC [a, b, c]).inv_dc_quant_.take 3).map Token.rat =
        [Token.rat a, Token.rat b, Token.rat c] from rfl]
      rw [show readRats 3 [Token.rat a, Token.rat b, Token.rat c] =
        some ([a, b, c], []) from rfl]
      simp only [Option.bind_eq_bind, Option.some_bind]
      rw [if_pos (by
        simp only [List.all_cons, List.all_nil, Bool.and_true, Bool.and_eq_true,
          decide_eq_true_eq]
        exact ⟨ha, hb, hc⟩)]
    rw [hdec]
  · intro ch hch
    interval_cases ch
    · exact ⟨rfl, rfl⟩
    · exact ⟨rfl, rfl⟩
    · exact ⟨rfl, rfl⟩

open DequantMatrices in
/-- Witness for C10: `SetCustomDC` at the concrete DC array `[1, 2, 4]`. -/
theorem C10_setcustomdc_stores_values_witness :
    ∃ m2, DequantMatrices.initState.SetCustomDC [1, 2, 4] = .ok m2 ∧
      ∀ c, c < 3 → m2.InvDCQuant c = ([1, 2, 4] : List ℚ).getD c 0 ∧
        m2.DCQuant c = 1 / ([1, 2, 4] : List ℚ).getD c 0 :=
  C10_setcustomdc_stores_values DequantMatrices.initState [1, 2, 4]
    (by decide) (by norm_num)

end Jxl

namespace Jxl
namespace Heap

lemma read_alloc_self (h : Heap) (v : List Int) :
    (h.alloc v).1.read h.next = some v := by
  simp [alloc, read, List.find?_cons_of_pos]

lemma read_alloc_other (h : Heap) (v : List Int) (p : Nat) (hne : p ≠ h.next) :
    (h.alloc v).1.read p = h.read p := by
  simp only [alloc, read, List.find?_cons]
  rw [decide_eq_false (show ¬(h.next = p) from fun hh => hne hh.symm)]

lemma allocated_alloc_self (h : Heap) (v : List Int) :
    (h.alloc v).1.allocated h.next = true := by
  simp [alloc, allocated]

lemma allocated_of_read (h : Heap) (p : Nat) (v : List Int)
    (hr : h.read p = some v) : h.allocated p = true := by
  unfold read at hr
  cases hf : h.cells.find? fun c => c.1 = p with
  | none => rw [hf] at hr; simp at hr
  | some c =>
      have hmem := List.mem_of_find?_eq_some hf
      have hp := List.find?_some hf
      simp only [decide_eq_true_eq] at hp
      unfold allocated
      rw [List.any_eq_true]
      exact ⟨c, hmem, by simp [hp]⟩

lemma lt_next_of_allocated (h : Heap) (p : Nat) (hwf : h.WF)
    (ha : h.allocated p = true) : p < h.next := by
  unfold allocated at ha
  rw [List.any_eq_true] at ha
  obtain ⟨c, hmem, hp⟩ := ha
  simp only [decide_eq_true_eq] at hp
  rw [← hp]
  exact hwf c hmem

lemma WF_alloc (h : Heap) (v : List Int) (hwf : h.WF) : (h.alloc v).1.WF := by
  intro c hc
  simp only [alloc] at hc ⊢
  rcases List.mem_cons.mp hc with rfl | hc'
  · simp
  · exact Nat.lt_succ_of_lt (hwf c hc')

lemma find?_filter_ne (cells : List (Nat × List Int)) (pt po : Nat)
    (hne : po ≠ pt) :
    ((cells.filter fun c => c.1 ≠ pt).find? fun c => c.1 = po) =
      cells.find? fun c => c.1 = po := by
  induction cells with
  | nil => rfl
  | cons c cs ih =>
      rw [List.filter_cons]
      by_cases h1 : c.1 = pt
      · rw [if_neg (by simp [h1])]
        rw [ih]
        rw [List.find?_cons]
        rw [decide_eq_false (show ¬(c.1 = po) by
          rw [h1]; exact fun hh => hne hh.symm)]
      · rw [if_pos (by simp [h1])]
        rw [List.find?_cons, List.find?_cons]
        by_cases h2 : c.1 = po
        · rw [decide_eq_true h2]
        · rw [decide_eq_false h2]
          exact ih

lemma read_free_other (h : Heap) (pt po : Nat) (h2 : Heap)
    (hne : po ≠ pt) (hf : h.free pt = some h2) :
    h2.read po = h.read po := by
  unfold free at hf
  split at hf
  · rw [← Option.some.inj hf]
    unfold read
    rw [find?_filter_ne h.cells pt po hne]
  · exact absurd hf (by simp)

lemma allocated_free_self (h : Heap) (p : Nat) (h2 : Heap)
    (hf : h.free p = some h2) : h2.allocated p = false := by
  unfold free at hf
  split at hf
  · rw [← Option.some.inj hf]
    unfold allocated
    rw [Bool.eq_false_iff]
    intro hany
    rw [List.any_eq_true] at hany
    obtain ⟨c, hmem, hp⟩ := hany
    rw [List.mem_filter] at hmem
    simp only [decide_eq_true_eq] at hp hmem
    exact absurd hp hmem.2
  · exact absurd hf (by simp)

lemma free_of_allocated (h : Heap) (p : Nat) (ha : h.allocated p = true) :
    ∃ h2, h.free p = some h2 := by
  unfold free
  rw [if_pos ha]
  exact ⟨_, rfl⟩

lemma free_none_of_not_allocated (h : Heap) (p : Nat)
    (ha : h.allocated p = false) : h.free p = none := by
  unfold free
  rw [if_neg (by simp [ha])]

end Heap
end Jxl

namespace Jxl
namespace Heap

lemma allocated_alloc_other (h : Heap) (v : List Int) (p : Nat)
    (hne : p ≠ h.next) : (h.alloc v).1.allocated p = h.allocated p := by
  simp only [alloc, allocated, List.any_cons]
  rw [decide_eq_false (show ¬(h.next = p) from fun hh => hne hh.symm)]
  rw [Bool.false_or]

lemma not_allocated_next (h : Heap) (hwf : h.WF) :
    h.allocated h.next = false := by
  cases hcase : h.allocated h.next with
  | false => rfl
  | true =>
      exact absurd (lt_next_of_allocated h h.next hwf hcase) (lt_irrefl h.next)

lemma free_eq (h : Heap) (p : Nat) (ha : h.allocated p = true) :
    h.free p = some { h with cells := h.cells.filter fun c => c.1 ≠ p } := by
  unfold free
  rw [if_pos ha]

end Heap

open QuantEncodingC Heap in
/-- **C7**: the ownership invariant of the `RAW` variant.  Constructing via
`QuantEncoding::RAW` stores a fresh copy of the caller's integer table;
copy-constructing or copy-assigning a `RAW`-mode instance deep-copies the
owned table (the two instances afterwards own distinct tables with equal
contents); moving transfers ownership and nulls the source's table
pointer; destruction releases the owned table exactly once (a second
release of the same object is a detected double free); and no other
variant owns heap memory (copy, move and destroy leave the heap
untouched). -/
theorem C7_raw_ownership :
    (∀ (h : Heap) (t : List Int) (s : Int), h.WF →
      (RAW h t s).2.mode = .kQuantModeRAW ∧
      (RAW h t s).2.qtable = some h.next ∧
      (RAW h t s).2.qtable_den_shift = s ∧
      (RAW h t s).1.read h.next = some t ∧
      h.allocated h.next = false ∧
      (RAW h t s).1.allocated h.next = true) ∧
    (∀ (h : Heap) (x : QuantEncodingC) (p : Nat) (v : List Int), h.WF →
      x.mode = .kQuantModeRAW → x.qtable = some p → h.read p = some v →
      ∃ h1 y, copyCtor h x = some (h1, y) ∧
        y.qtable = some h.next ∧ p ≠ h.next ∧
        h1.read h.next = some v ∧ h1.read p = some v) ∧
    (∀ (h : Heap) (x other : QuantEncodingC) (pt po : Nat) (v : List Int),
      h.WF → x.mode = .kQuantModeRAW → x.qtable = some pt →
      other.mode = .kQuantModeRAW → other.qtable = some po → pt ≠ po →
      h.allocated pt = true → h.read po = some v →
      ∃ h2 y, assign h x other = some (h2, y) ∧
        y.qtable = some h.next ∧ po ≠ h.next ∧
        h2.read h.next = some v ∧ h2.read po = some v ∧
        h2.allocated pt = false) ∧
    (∀ x : QuantEncodingC, x.mode = .kQuantModeRAW →
      (moveCtor x).1 = x ∧ (moveCtor x).2.qtable = none ∧
      (moveCtor x).2.mode = .kQuantModeRAW) ∧
    (∀ (h : Heap) (x : QuantEncodingC) (p : Nat),
      x.mode = .kQuantModeRAW → x.qtable = some p → h.allocated p = true →
      ∃ h2, dtor h x = some h2 ∧ h2.allocated p = false ∧ dtor h2 x = none) ∧
    (∀ (h : Heap) (x : QuantEncodingC), x.mode ≠ .kQuantModeRAW →
      copyCtor h x = some (h, x) ∧ moveCtor x = (x, x) ∧ dtor h x = some h) := by
  refine ⟨?_, ?_, ?_, ?_, ?_, ?_⟩
  · intro h t s hwf
    exact ⟨rfl, rfl, rfl, read_alloc_self h t, not_allocated_next h hwf,
      allocated_alloc_self h t⟩
  · intro h x p v hwf hmode hqt hread
    have hlt : p < h.next :=
      lt_next_of_allocated h p hwf (allocated_of_read h p v hread)
    have hne : p ≠ h.next := Nat.ne_of_lt hlt
    unfold copyCtor
    rw [if_pos hmode]
    simp only [hqt, hread]
    refine ⟨(h.alloc v).1, { x with qtable := some h.next }, rfl, rfl, hne,
      read_alloc_self h v, ?_⟩
    rw [read_alloc_other h v p hne]
    exact hread
  · intro h x other pt po v hwf hxmode hxqt homode hoqt hptpo hpt hread
    have hltpt : pt < h.next := lt_next_of_allocated h pt hwf hpt
    have hltpo : po < h.next :=
      lt_next_of_allocated h po hwf (allocated_of_read h po v hread)
    have hnept : pt ≠ h.next := Nat.ne_of_lt hltpt
    have hnepo : po ≠ h.next := Nat.ne_of_lt hltpo
    have hread1 : ({ h with cells := h.cells.filter fun c => c.1 ≠ pt } :
        Heap).read po = some v := by
      rw [read_free_other h pt po _ (fun hh => hptpo hh.symm) (free_eq h pt hpt)]
      exact hread
    unfold assign
    rw [if_pos hxmode]
    simp only [hxqt, free_eq h pt hpt, homode, hoqt, hread1, reduceIte]
    refine ⟨_, _, rfl, rfl, hnepo, ?_, ?_, ?_⟩
    · exact read_alloc_self _ v
    · rw [read_alloc_other
        { h with cells := h.cells.filter fun c => c.1 ≠ pt } v po hnepo]
      exact hread1
    · rw [allocated_alloc_other
        { h with cells := h.cells.filter fun c => c.1 ≠ pt } v pt hnept]
      exact allocated_free_self h pt _ (free_eq h pt hpt)
  · intro x hmode
    unfold moveCtor
    rw [if_pos hmode]
    exact ⟨rfl, rfl, hmode⟩
  · intro h x p hmode hqt halloc
    unfold dtor
    rw [if_pos hmode]
    simp only [hqt]
    rw [free_eq h p halloc]
    refine ⟨_, rfl, allocated_free_self h p _ (free_eq h p halloc), ?_⟩
    rw [if_pos hmode]
    exact free_none_of_not_allocated _ p
      (allocated_free_self h p _ (free_eq h p halloc))
  · intro h x hmode
    unfold copyCtor moveCtor dtor
    rw [if_neg hmode, if_neg hmode, if_neg hmode]
    exact ⟨rfl, rfl, rfl⟩

open QuantEncodingC Heap in
/-- Witness for C7: a concrete run — construct a `RAW` encoding holding
`[1, 2]` on the empty heap, copy it, and destroy both copies. -/
theorem C7_raw_ownership_witness :
    ∃ h1 y, copyCtor (RAW Heap.empty [1, 2] 0).1 (RAW Heap.empty [1, 2] 0).2 =
        some (h1, y) ∧
      y.qtable = some (RAW Heap.empty [1, 2] 0).1.next ∧
      0 ≠ (RAW Heap.empty [1, 2] 0).1.next ∧
      h1.read (RAW Heap.empty [1, 2] 0).1.next = some [1, 2] ∧
      h1.read 0 = some [1, 2] :=
  C7_raw_ownership.2.1 (RAW Heap.empty [1, 2] 0).1 (RAW Heap.empty [1, 2] 0).2
    0 [1, 2] (by decide) rfl rfl (by decide)

end Jxl
